import Mathlib

/-!
# Verification of the gexport core

Shallow embedding of the gexport repository (schemalib.py, script.py,
util.py, databaselib.py, sqlite.py, __main__.py) together with proofs of
the specification's testable properties.

Conventions of the embedding:
* Python dicts become association lists with dict-assignment semantics
  (replace in place, else append); `dict.get` becomes `List.lookup`.
* Python `int` becomes `Int` (or `Nat` where the source guarantees
  non-negativity), Python `float` inputs from the schema become `Rat`,
  with Python's `round` (banker's rounding, half to even) modelled
  exactly on `Rat`.
* Fallible Python code (raising) returns `Except`/`Option`.
* Parent back-pointers (`self.parent`) become an explicit ancestor
  `Chain` carried alongside a node while resolving.
-/

namespace GExport

/-! ## schemalib.py: enumerations and resize descriptors -/

/-- `schemalib.Action` (SHOW / HIDE / LEAVE). -/
inductive Action where
  | SHOW
  | HIDE
  | LEAVE
deriving DecidableEq, Repr

/-- `schemalib.Scale` and `schemalib.WidthHeight` merged as the union
`Resize = Scale | WidthHeight`.  The `WidthHeight` validity condition
(`__post_init__` raises unless width or height is given) is enforced by
`create_resize_from_model` below, which is the only place the source
constructs one from external data. -/
inductive Resize where
  | scale (factor : ℚ)
  | widthHeight (width height : Option ℤ)
deriving DecidableEq, Repr

/-- Errors raised while building the strict hierarchy from the model:
`KeyError` on a duplicate group (Group.add_group), `ValueError` from
`WidthHeight.__post_init__`, and Python `AttributeError` from resolving
a missing module attribute in a match pattern. -/
inductive BuildError where
  | duplicateGroup (name : String)
  | malformedResize
  | attributeError (name : String)
deriving DecidableEq, Repr

/-- The explicit (possibly absent) per-node overrides stored by
`Layer.__init__` / `DefaultsMixin.__init__`: `_action`, `_mask`,
`_resize`. -/
structure Defaults where
  action : Option Action
  mask : Option Action
  resize : Option Resize
deriving DecidableEq, Repr

/-- A node with no explicit overrides (all `None` in the source). -/
def Defaults.empty : Defaults := ⟨Option.none, Option.none, Option.none⟩

/-- The concrete defaults held by the `Schema` root
(`Schema.__init__`: `default_action`, `default_mask`, `default_resize`). -/
structure SchemaDefaults where
  default_action : Action
  default_mask : Action
  default_resize : Option Resize
deriving DecidableEq, Repr

/-- `Schema.__init__`'s parameter defaults: `Action.LEAVE`, `Action.LEAVE`,
`None`. -/
def SchemaDefaults.unset : SchemaDefaults :=
  ⟨Action.LEAVE, Action.LEAVE, Option.none⟩

/-- The ownership chain of a node: every ancestor implementing
`SupportsParent`, ending at the `Schema` root.  Each intermediate level
(XCF, Export, Group) stores its explicit overrides and defers to its
parent exactly as `DefaultsMixin` does. -/
inductive Chain where
  | root (s : SchemaDefaults)
  | node (own : Defaults) (parent : Chain)
deriving DecidableEq, Repr

/-- `DefaultsMixin.default_action`:
`self._default_action or self.parent.default_action` (Action members are
truthy, `None` is falsy). -/
def Chain.default_action : Chain → Action
  | .root s => s.default_action
  | .node own parent => own.action.getD parent.default_action

/-- `DefaultsMixin.default_mask`. -/
def Chain.default_mask : Chain → Action
  | .root s => s.default_mask
  | .node own parent => own.mask.getD parent.default_mask

/-- `DefaultsMixin.default_resize`:
`self.parent.default_resize if self._default_resize is None else self._default_resize`. -/
def Chain.default_resize : Chain → Option Resize
  | .root s => s.default_resize
  | .node own parent =>
      match own.resize with
      | Option.none => parent.default_resize
      | some r => some r

/-- `schemalib.Layer`: explicit overrides plus the owning parent's chain. -/
structure Layer where
  own : Defaults
  parent : Chain
deriving DecidableEq, Repr

/-- `Layer.action`: `self._action or self.parent.default_action`. -/
def Layer.action (l : Layer) : Action := l.own.action.getD l.parent.default_action

/-- `Layer.mask`: `self._mask or self.parent.default_mask`. -/
def Layer.mask (l : Layer) : Action := l.own.mask.getD l.parent.default_mask

/-- `Layer.resize`. -/
def Layer.resize (l : Layer) : Option Resize :=
  match l.own.resize with
  | Option.none => l.parent.default_resize
  | some r => some r

/-! ## schemalib.py: the Group tree -/

/-- Python dict assignment `d[k] = v`: replace the binding in place if the
key is present, else append at the end (insertion order preserved). -/
def dictSet {κ α : Type} [DecidableEq κ] (d : List (κ × α)) (k : κ) (v : α) :
    List (κ × α) :=
  match d with
  | [] => [(k, v)]
  | (k0, v0) :: rest =>
      if k0 = k then (k, v) :: rest else (k0, v0) :: dictSet rest k v

/-- `schemalib.Group`: explicit overrides, the `layers` dict (each entry
holding the corresponding `Layer`'s explicit overrides; its parent is the
group itself) and the `groups` dict of child groups. -/
inductive GroupNode where
  | mk (own : Defaults)
       (layers : List (String × Defaults))
       (groups : List (String × GroupNode))

def GroupNode.own : GroupNode → Defaults
  | .mk o _ _ => o

def GroupNode.layers : GroupNode → List (String × Defaults)
  | .mk _ l _ => l

def GroupNode.groups : GroupNode → List (String × GroupNode)
  | .mk _ _ g => g

/-- The chain seen by children of a group placed under ancestor chain
`ctx`. -/
def GroupNode.chain (g : GroupNode) (ctx : Chain) : Chain :=
  Chain.node g.own ctx

/-- `Group.add_layer`: `self.layers[name] = Layer(self, action, mask, resize)`
(overwrites silently). -/
def GroupNode.add_layer (g : GroupNode) (name : String)
    (action mask : Option Action) (resize : Option Resize) : GroupNode :=
  GroupNode.mk g.own (dictSet g.layers name ⟨action, mask, resize⟩) g.groups

/-- Replace a group's child-group dict. -/
def GroupNode.setGroups (g : GroupNode) (gs : List (String × GroupNode)) :
    GroupNode :=
  GroupNode.mk g.own g.layers gs

/-- `Group.get_layer(path)`: split the path into head and tail; with a
non-empty tail descend through `self.groups`, synthesising the group's
`_default_layer` (a `Layer(self)` with no overrides) when the child group
is unregistered; with an empty tail look the head up in `self.layers`,
again defaulting.  An empty path raises (`head, *tail = path`), modelled
as `none`. -/
def GroupNode.get_layer (g : GroupNode) (ctx : Chain) :
    List String → Option Layer
  | [] => Option.none
  | head :: tail =>
      match tail with
      | [] => some ⟨(g.layers.lookup head).getD Defaults.empty, g.chain ctx⟩
      | _ :: _ =>
          match g.groups.lookup head with
          | Option.none => some ⟨Defaults.empty, g.chain ctx⟩
          | some child => child.get_layer (g.chain ctx) tail

/-! ## models.py: the permissive declarative model -/

mutual
/-- A nested rule-tree node of the declarative model: a bare string
(`str`), a `models.Layer` mapping (`layer`, optional `mask`), or a
`models.Group` mapping (`group`, optional `default`, and `show` / `hide` /
`leave` subtrees). -/
inductive RuleNode where
  | str (s : String)
  | layer (name : String) (mask : Option Action)
  | group (name : String) (default : Option Action)
          (shw hid lv : RuleArg)

/-- The type of the `show` / `hide` / `leave` subtree fields:
`list[Group | Layer | str] | Group | Layer | str | None`. -/
inductive RuleArg where
  | none
  | one (n : RuleNode)
  | list (l : List RuleNode)
end

/-- `models.CropAlgorithm` (`algorithm: 'bounding-box'`) or a bare layer
name, as allowed by `models.Export.crop`. -/
inductive CropModel where
  | algorithm
  | name (s : String)
deriving DecidableEq, Repr

/-- `models.WidthHeight` (shape-only validation: both fields optional) or
a bare float, as allowed by the model's `resize` fields. -/
inductive ResizeModel where
  | wh (width height : Option ℤ)
  | factor (f : ℚ)
deriving DecidableEq, Repr

/-- `models.Export`. -/
structure ExportModel where
  default : Option Action
  crop : Option CropModel
  resize : Option ResizeModel
  shw : RuleArg
  hid : RuleArg
  lv : RuleArg

/-- The strict `Crop` hierarchy type (`CropBoundingBox` / `CropLayer`). -/
inductive Crop where
  | boundingBox
  | layer (name : String)
deriving DecidableEq, Repr

/-- `schemalib.create_resize_from_model`: a float becomes `Scale`, a
`models.WidthHeight` becomes `schemalib.WidthHeight` whose
`__post_init__` raises `ValueError` when width and height are both
absent, `None` stays `None`. -/
def create_resize_from_model :
    Option ResizeModel → Except BuildError (Option Resize)
  | Option.none => .ok Option.none
  | some (.factor f) => .ok (some (.scale f))
  | some (.wh width height) =>
      match width, height with
      | Option.none, Option.none => .error .malformedResize
      | w, h => .ok (some (.widthHeight w h))

mutual
/-- `schemalib.add_actions_from_model`: dispatch on the shape of the
subtree argument (a list iterates in order, a single node processes
directly, `None` is a no-op). -/
def add_actions_from_model (g : GroupNode) (m : RuleArg) (a : Action) :
    Except BuildError GroupNode :=
  match m with
  | .none => .ok g
  | .one n => addActionsNode g n a
  | .list l => addActionsList g l a

def addActionsList (g : GroupNode) (l : List RuleNode) (a : Action) :
    Except BuildError GroupNode :=
  match l with
  | [] => .ok g
  | n :: rest => do
      let g' ← addActionsNode g n a
      addActionsList g' rest a

/-- One rule node.  A bare string adds a layer with the enclosing action;
a `models.Layer` adds a layer with that action and its own mask; a
`models.Group` first registers the group's name as a layer with the
enclosing action, then `Group.add_group` (raising `KeyError` when a group
of that name already exists under this parent), then recurses into the
child's `show` / `hide` / `leave` subtrees. -/
def addActionsNode (g : GroupNode) (n : RuleNode) (a : Action) :
    Except BuildError GroupNode :=
  match n with
  | .str s => .ok (g.add_layer s (some a) Option.none Option.none)
  | .layer name mask => .ok (g.add_layer name (some a) mask Option.none)
  | .group name dflt shw hid lv => do
      let g' := g.add_layer name (some a) Option.none Option.none
      match g'.groups.lookup name with
      | some _ => .error (.duplicateGroup name)
      | Option.none => do
          let child := GroupNode.mk ⟨dflt, Option.none, Option.none⟩ [] []
          let child ← add_actions_from_model child shw Action.SHOW
          let child ← add_actions_from_model child hid Action.HIDE
          let child ← add_actions_from_model child lv Action.LEAVE
          .ok (g'.setGroups (dictSet g'.groups name child))
end

/-- `schemalib.Export`: output path, optional crop, explicit defaults,
and the root `Group` (created by `Export.__init__` as
`Group(self, default_action=default_action)`). -/
structure ExportNode where
  path : String
  crop : Option Crop
  own : Defaults
  root : GroupNode

/-- `schemalib.XCF`: document path, explicit defaults, exports dict. -/
structure XCFNode where
  path : String
  own : Defaults
  exports : List (String × ExportNode)

/-- The `match export_model.crop` statement opening
`add_export_from_model`.  Its first case is the class pattern
`models.CropAlgorithem()`; the models module defines `CropAlgorithm` and
no attribute named `CropAlgorithem`, so resolving the pattern's class
raises `AttributeError` before any case can be tried, whatever the
subject is. -/
def matchExportCrop (_crop : Option CropModel) :
    Except BuildError (Option Crop) :=
  .error (.attributeError "CropAlgorithem")

/-- What the `match export_model.crop` statement was evidently intended
to do (the spelling `CropAlgorithm` models.py actually defines):
`CropAlgorithm` selects the bounding-box crop, a bare string selects a
named-layer crop, `None` no crop. -/
def matchExportCropIntended (crop : Option CropModel) :
    Except BuildError (Option Crop) :=
  match crop with
  | some .algorithm => .ok (some .boundingBox)
  | some (.name s) => .ok (some (.layer s))
  | Option.none => .ok Option.none

/-- `schemalib.add_export_from_model` with the crop `match` factored into
`matchExportCrop` (and the path-join of `root_dir / export_path` written
as string concatenation). -/
def add_export_from_model (root_dir : String) (xcf : XCFNode)
    (export_path : String) (m : ExportModel) :
    Except BuildError XCFNode := do
  let crop ← matchExportCrop m.crop
  let resize ← create_resize_from_model m.resize
  let root0 := GroupNode.mk ⟨m.default, Option.none, Option.none⟩ [] []
  let root1 ← add_actions_from_model root0 m.shw Action.SHOW
  let root2 ← add_actions_from_model root1 m.hid Action.HIDE
  let root3 ← add_actions_from_model root2 m.lv Action.LEAVE
  let asset : ExportNode :=
    { path := root_dir ++ "/" ++ export_path
      crop := crop
      own := ⟨m.default, Option.none, resize⟩
      root := root3 }
  .ok { xcf with exports := dictSet xcf.exports asset.path asset }

/-! ## util.py / script.py: the GIMP layer tree and traversal

The image-editing engine is modelled by the exact interface the core
consumes (spec §6): an ordered layer forest with per-layer name,
visibility, mask-application state, group/leaf kind, offsets and pixel
dimensions. -/

/-- A live GIMP layer: a leaf or a group layer with ordered children. -/
inductive GLayer where
  | leaf (name : String) (visible : Bool) (left top : ℤ)
         (width height : ℕ) (applyMask : Bool)
  | group (name : String) (visible : Bool) (left top : ℤ)
          (width height : ℕ) (applyMask : Bool) (children : List GLayer)

def GLayer.name : GLayer → String
  | .leaf n _ _ _ _ _ _ => n
  | .group n _ _ _ _ _ _ _ => n

def GLayer.visible : GLayer → Bool
  | .leaf _ v _ _ _ _ _ => v
  | .group _ v _ _ _ _ _ _ => v

def GLayer.left : GLayer → ℤ
  | .leaf _ _ l _ _ _ _ => l
  | .group _ _ l _ _ _ _ _ => l

def GLayer.top : GLayer → ℤ
  | .leaf _ _ _ t _ _ _ => t
  | .group _ _ _ t _ _ _ _ => t

def GLayer.width : GLayer → ℕ
  | .leaf _ _ _ _ w _ _ => w
  | .group _ _ _ _ w _ _ _ => w

def GLayer.height : GLayer → ℕ
  | .leaf _ _ _ _ _ h _ => h
  | .group _ _ _ _ _ h _ _ => h

def GLayer.applyMask : GLayer → Bool
  | .leaf _ _ _ _ _ _ m => m
  | .group _ _ _ _ _ _ m _ => m

/-- `isinstance(layer, Gimp.GroupLayer)`. -/
def GLayer.isGroup : GLayer → Bool
  | .leaf _ _ _ _ _ _ _ => false
  | .group _ _ _ _ _ _ _ _ => true

def GLayer.children : GLayer → List GLayer
  | .leaf _ _ _ _ _ _ _ => []
  | .group _ _ _ _ _ _ _ c => c

/-- `layer.set_visible(b)`. -/
def GLayer.set_visible (l : GLayer) (b : Bool) : GLayer :=
  match l with
  | .leaf n _ lt tp w h m => .leaf n b lt tp w h m
  | .group n _ lt tp w h m c => .group n b lt tp w h m c

/-- `layer.set_apply_mask(b)`. -/
def GLayer.set_apply_mask (l : GLayer) (b : Bool) : GLayer :=
  match l with
  | .leaf n v lt tp w h _ => .leaf n v lt tp w h b
  | .group n v lt tp w h _ c => .group n v lt tp w h b c

mutual
/-- `util._traverse` over a layer list: for each layer passing `inc`,
yield it with its accumulated name path, then (for a group) recurse into
its children; a layer failing `inc` is skipped together with its whole
subtree. -/
def traverseList (inc : GLayer → Bool) (path : List String) :
    List GLayer → List (GLayer × List String)
  | [] => []
  | l :: rest => traverseOne inc path l ++ traverseList inc path rest

/-- One layer of `util._traverse`. -/
def traverseOne (inc : GLayer → Bool) (path : List String) (l : GLayer) :
    List (GLayer × List String) :=
  if inc l then
    match l with
    | .leaf .. => [(l, path ++ [l.name])]
    | .group n v lt tp w h m children =>
        (GLayer.group n v lt tp w h m children, path ++ [n]) ::
          traverseList inc (path ++ [n]) children
  else []
end

/-- `util.traverse` with its default include predicate. -/
def traverseAll (layers : List GLayer) : List (GLayer × List String) :=
  traverseList (fun _ => true) [] layers

/-- `Gimp.Image.get_layer_by_name`, modelled as the first layer of that
name in depth-first stack order (GIMP keeps layer names unique within an
image). -/
def get_layer_by_name (layers : List GLayer) (name : String) :
    Option GLayer :=
  ((traverseAll layers).map Prod.fst).find? (fun l => l.name == name)

/-! ## script.py: bounding boxes -/

/-- `script.BoundingBox` (NamedTuple field order: width, height,
x_offset, y_offset). -/
structure BBox where
  width : ℤ
  height : ℤ
  x_offset : ℤ
  y_offset : ℤ
deriving DecidableEq, Repr

/-- Errors raised by the export pipeline. -/
inductive ExportError where
  | noBoundingBox
  | missingCropLayer (name : String)
  | scaleFailed
  | resizeFailed
  | zeroDivision
  | assertBothAbsent
  | invalidImageHandle
deriving DecidableEq, Repr

/-- The four running extrema of `get_bounding_box`. -/
structure BBoxAcc where
  min_left : ℤ
  min_top : ℤ
  max_right : ℤ
  max_bottom : ℤ
deriving DecidableEq, Repr

/-- The loop body of `get_bounding_box`: group layers are skipped, a
non-group layer updates the four extrema from its offsets and extent. -/
def bboxStep (st : BBoxAcc) (l : GLayer) : BBoxAcc :=
  if l.isGroup then st
  else
    { min_left := min l.left st.min_left
      min_top := min l.top st.min_top
      max_right := max (l.left + (l.width : ℤ)) st.max_right
      max_bottom := max (l.top + (l.height : ℤ)) st.max_bottom }

/-- `script.get_bounding_box`: extrema start at
`min_left = max_width = image.get_width()`,
`min_top = max_height = image.get_height()`, `max_right = max_bottom = 0`;
the traversal includes only visible layers (pruning whole subtrees at an
invisible layer); a degenerate result (`max_right < min_left` or
`max_bottom < min_top`) raises; the rectangle is then clamped to
`[0, width] × [0, height]`. -/
def get_bounding_box (doc_width doc_height : ℤ) (layers : List GLayer) :
    Except ExportError BBox :=
  let acc :=
    ((traverseList (fun l => l.visible) [] layers).map Prod.fst).foldl
      bboxStep ⟨doc_width, doc_height, 0, 0⟩
  if acc.max_right < acc.min_left ∨ acc.max_bottom < acc.min_top then
    .error .noBoundingBox
  else
    let min_left := max acc.min_left 0
    let min_top := max acc.min_top 0
    let max_right := min acc.max_right doc_width
    let max_bottom := min acc.max_bottom doc_height
    .ok ⟨max_right - min_left, max_bottom - min_top, min_left, min_top⟩

/-- Python's built-in `round` on an exact rational: round half to even. -/
def pyRound (q : ℚ) : ℤ :=
  let f := ⌊q⌋
  if q - f < 1 / 2 then f
  else if 1 / 2 < q - f then f + 1
  else if 2 ∣ f then f else f + 1

/-! ## script.py: create_export -/

/-- The state of one open document the core reads and mutates: canvas
dimensions and the layer forest.  After `image.crop` / `image.scale` the
pipeline reads only the canvas dimensions, so the engine's internal
repositioning of layer content under those operations (external engine
behaviour the core never consumes) is not tracked. -/
structure DocState where
  width : ℤ
  height : ℤ
  layers : List GLayer

/-- `script.ExportMetadata`. -/
structure ExportMetadata where
  width : ℤ
  height : ℤ
  x_offset : ℤ
  y_offset : ℤ
deriving DecidableEq, Repr

/-- `Export.resize` (schemalib.py): the export's resolved `default_resize`
(its own explicit value, else the chain's), falling back once more to the
parent chain when that is `None`. -/
def ExportNode.resize (e : ExportNode) (parent : Chain) : Option Resize :=
  match (Chain.node e.own parent).default_resize with
  | Option.none => parent.default_resize
  | some r => some r

/-- Apply the visibility decision of a resolved layer
(`match layer_actions.action` in `create_export`): SHOW → visible,
HIDE → hidden, LEAVE → unchanged. -/
def applyActionVisible (l : GLayer) (a : Action) : GLayer :=
  match a with
  | .SHOW => l.set_visible true
  | .HIDE => l.set_visible false
  | .LEAVE => l

/-- Apply the mask decision (`match layer_actions.mask`). -/
def applyActionMask (l : GLayer) (a : Action) : GLayer :=
  match a with
  | .SHOW => l.set_apply_mask true
  | .HIDE => l.set_apply_mask false
  | .LEAVE => l

mutual
/-- The first loop of `create_export`
(`for layer, layer_path in traverse(layers)` with the always-true include
predicate): for every layer, resolve `export.get_layer(layer_path)` from
the export's root group and apply its action and mask. -/
def applyActionsList (e : ExportNode) (ctx : Chain) (path : List String) :
    List GLayer → List GLayer
  | [] => []
  | l :: rest =>
      applyActionsOne e ctx path l :: applyActionsList e ctx path rest

/-- One layer of the visibility/mask loop.  The path handed to
`get_layer` ends in the layer's own name; it is never empty, so the
`getD` default is unreachable.  The resolved action and mask touch only
the layer's `visible` / `applyMask` fields, so a group keeps its children
(which the loop then visits in turn). -/
def applyActionsOne (e : ExportNode) (ctx : Chain) (path : List String)
    (l : GLayer) : GLayer :=
  match l with
  | .leaf n v lt tp w h m =>
      let la := (e.root.get_layer (Chain.node e.own ctx) (path ++ [n])).getD
        ⟨Defaults.empty, e.root.chain (Chain.node e.own ctx)⟩
      applyActionMask (applyActionVisible (.leaf n v lt tp w h m) la.action)
        la.mask
  | .group n v lt tp w h m children =>
      let la := (e.root.get_layer (Chain.node e.own ctx) (path ++ [n])).getD
        ⟨Defaults.empty, e.root.chain (Chain.node e.own ctx)⟩
      let l1 := applyActionMask
        (applyActionVisible (.group n v lt tp w h m children) la.action)
        la.mask
      .group n l1.visible lt tp w h l1.applyMask
        (applyActionsList e ctx (path ++ [n]) children)
end

/-- The `match export.crop` step of `create_export`: bounding-box crop
computes `get_bounding_box`; a named-layer crop takes that layer's
extent with its offsets clamped to `≥ 0` (raising when the layer is
absent); no crop yields no rectangle. -/
def cropRegion (doc : DocState) (crop : Option Crop) :
    Except ExportError (Option BBox) :=
  match crop with
  | some .boundingBox => do
      let bb ← get_bounding_box doc.width doc.height doc.layers
      .ok (some bb)
  | some (.layer name) =>
      match get_layer_by_name doc.layers name with
      | Option.none => .error (.missingCropLayer name)
      | some l =>
          .ok (some ⟨(l.width : ℤ), (l.height : ℤ), max l.left 0, max l.top 0⟩)
  | Option.none => .ok Option.none

/-- The `match export.resize` step of `create_export`, acting on the
already-cropped document dimensions `(w, h)` and tracked offsets
`(x, y)`.  `scaleOk` is the external engine's success predicate for
`image.scale` (a reported failure raises).  Returns the final
`(width, height, x_offset, y_offset)`. -/
def applyResize (scaleOk : ℤ → ℤ → Bool) (w h x y : ℤ) :
    Option Resize → Except ExportError (ℤ × ℤ × ℤ × ℤ)
  | Option.none => .ok (w, h, x, y)
  | some (.scale f) =>
      let nw := pyRound (f * w)
      let nh := pyRound (f * h)
      if scaleOk nw nh then
        .ok (nw, nh, pyRound (f * x), pyRound (f * y))
      else .error .scaleFailed
  | some (.widthHeight width height) =>
      match width, height with
      | Option.none, Option.none => .error .assertBothAbsent
      | Option.none, some hgt =>
          if h = 0 then .error .zeroDivision
          else
            let xf : ℚ := (hgt : ℚ) / (h : ℚ)
            let wdt := pyRound (xf * w)
            if scaleOk wdt hgt then
              .ok (wdt, hgt, pyRound (xf * x), pyRound (xf * y))
            else .error .resizeFailed
      | some wdt, Option.none =>
          if w = 0 then .error .zeroDivision
          else
            let yf : ℚ := (wdt : ℚ) / (w : ℚ)
            let hgt := pyRound (yf * h)
            if scaleOk wdt hgt then
              .ok (wdt, hgt, pyRound (yf * x), pyRound (yf * y))
            else .error .resizeFailed
      | some wdt, some hgt =>
          if w = 0 ∨ h = 0 then .error .zeroDivision
          else
            let xf : ℚ := (wdt : ℚ) / (w : ℚ)
            let yf : ℚ := (hgt : ℚ) / (h : ℚ)
            if scaleOk wdt hgt then
              .ok (wdt, hgt, pyRound (xf * x), pyRound (yf * y))
            else .error .resizeFailed

/-- `script.create_export` without the final `Gimp.file_save` (a pure
side effect on the artifact path): apply every layer's resolved
action/mask, determine the crop region, crop (the tracked offset becomes
the region's top-left, and the canvas takes the region's size), resize
after crop, and return the mutated document with the final geometry.
`ctx` is the ownership chain of the export (its XCF and the schema). -/
def create_export (scaleOk : ℤ → ℤ → Bool) (doc : DocState)
    (e : ExportNode) (ctx : Chain) :
    Except ExportError (DocState × ExportMetadata) := do
  let doc1 : DocState :=
    { doc with layers := applyActionsList e ctx [] doc.layers }
  let bbox ← cropRegion doc1 e.crop
  let (doc2, offs) :=
    match bbox with
    | Option.none => (doc1, ((0 : ℤ), (0 : ℤ)))
    | some bb =>
        ({ doc1 with width := bb.width, height := bb.height },
         (bb.x_offset, bb.y_offset))
  let (fw, fh, fx, fy) ←
    applyResize scaleOk doc2.width doc2.height offs.1 offs.2
      (e.resize ctx)
  .ok ({ doc2 with width := fw, height := fh },
       { width := fw, height := fh, x_offset := fx, y_offset := fy })

/-! ## util.py / script.py: documents as engine resources (run loop)

`run()` processes one export inside
`with open_image_duplicate(image) as duplicate:` — the duplicate is a
fresh engine resource copied from the original, the pipeline body runs
against the duplicate only, and `duplicate.delete()` runs in the
`finally` block, on success and on failure alike.  The engine's document
store is modelled as a heap of handles. -/

abbrev Handle := ℕ

/-- The engine's document store: open images by handle. -/
abbrev Heap := List (Handle × DocState)

/-- A handle not yet in use (strictly above every open handle). -/
def freshHandle (h : Heap) : Handle :=
  (h.map Prod.fst).foldl max 0 + 1

/-- `image.duplicate()`: allocate a fresh handle holding a copy of the
original's current state (an invalid original yields an empty document,
a case the theorems exclude). -/
def duplicateImage (h : Heap) (orig : Handle) : Heap × Handle :=
  let d := freshHandle h
  (dictSet h d ((h.lookup orig).getD ⟨0, 0, []⟩), d)

/-- `image.delete()`: release the handle's resources. -/
def deleteImage (h : Heap) (k : Handle) : Heap :=
  h.filter (fun p => p.1 ≠ k)

/-- One iteration of `run()`'s inner export loop, per-export part:
`with open_image_duplicate(image) as duplicate: create_export(duplicate, export)`.
The duplicate is created from the original, `create_export` reads and
writes only the duplicate's handle, and the `finally` of
`open_image_duplicate` deletes the duplicate on every exit path. -/
def runOneExport (scaleOk : ℤ → ℤ → Bool) (h : Heap) (orig : Handle)
    (e : ExportNode) (ctx : Chain) :
    Except ExportError ExportMetadata × Heap :=
  let (h1, dup) := duplicateImage h orig
  match h1.lookup dup with
  | Option.none => (.error .invalidImageHandle, deleteImage h1 dup)
  | some doc =>
      match create_export scaleOk doc e ctx with
      | .ok (doc', md) => (.ok md, deleteImage (dictSet h1 dup doc') dup)
      | .error err => (.error err, deleteImage h1 dup)

/-! ## databaselib.py / sqlite.py: the metadata store -/

/-- `databaselib._Export`: one row of the `exports` table. -/
structure ExportRow where
  path : String
  width : ℤ
  height : ℤ
  x_offset : ℤ
  y_offset : ℤ
deriving DecidableEq, Repr

/-- The `exports` table, rows in storage order (the path is the primary
key: well-formed tables have pairwise distinct paths). -/
abbrev ExportsTable := List ExportRow

/-- A store error surfacing from SQLite (CHECK constraint violation of
the non-negativity constraints). -/
inductive DBError where
  | checkViolation
deriving DecidableEq, Repr

/-- The row replacement of `INSERT ... ON CONFLICT (path) DO UPDATE`:
overwrite the row with this path in place, else append. -/
def upsertRow : ExportsTable → ExportRow → ExportsTable
  | [], r => [r]
  | r0 :: rest, r =>
      if r0.path = r.path then r :: rest else r0 :: upsertRow rest r

/-- `_Database.save_export`: the insert honours the table's CHECK
constraints (width, height, x_offset, y_offset all `≥ 0`); within them it
inserts or fully overwrites the row keyed by `path`. -/
def save_export (t : ExportsTable) (path : String) (width height x y : ℤ) :
    Except DBError ExportsTable :=
  if 0 ≤ width ∧ 0 ≤ height ∧ 0 ≤ x ∧ 0 ≤ y then
    .ok (upsertRow t ⟨path, width, height, x, y⟩)
  else .error .checkViolation

/-- `_Database.iter_exports`: all rows ordered by path ascending. -/
def iter_exports (t : ExportsTable) : ExportsTable :=
  t.mergeSort (fun a b => a.path ≤ b.path)

/-- `sqlite.transaction`: `BEGIN`, run the body, `COMMIT`; on an
exception `ROLLBACK` (the pre-transaction state survives) and re-raise.
The result is the post-transaction state together with the propagated
error, if any. -/
def transactionRun {ε σ : Type} (t0 : σ) (body : σ → Except ε σ) :
    σ × Option ε :=
  match body t0 with
  | .ok t1 => (t1, Option.none)
  | .error e => (t0, some e)

/-- The body of `_Database.remove_data_for_missing_files`: one DELETE per
row of `iter_exports` whose path does not name an existing file
(`onDisk`), deleting by path equality. -/
def pruneBody (onDisk : String → Bool) (t : ExportsTable) : ExportsTable :=
  ((iter_exports t).filter (fun r => !onDisk r.path)).foldl
    (fun acc r => acc.filter (fun row => row.path ≠ r.path)) t

/-- `_Database.remove_data_for_missing_files`: the batch of DELETEs runs
inside one `transaction(...)` block. -/
def remove_data_for_missing_files (onDisk : String → Bool)
    (t : ExportsTable) : ExportsTable × Option DBError :=
  transactionRun t (fun t0 => .ok (pruneBody onDisk t0))

/-! ## __main__.py: the metadata report's origin -/

/-- `__main__.AutoOrigin` / `XYOrigin` (`Origin = AutoOrigin | XYOrigin`). -/
inductive Origin where
  | auto
  | xy (x y : ℤ)
deriving DecidableEq, Repr

/-- A fatal report error: Python `min()` over an empty sequence raises
`ValueError`. -/
inductive ReportError where
  | emptySequence
deriving DecidableEq, Repr

/-- Python `min` over a non-empty sequence of integers; raises on an
empty one. -/
def minList : List ℤ → Except ReportError ℤ
  | [] => .error .emptySequence
  | x :: xs => .ok (xs.foldl min x)

/-- The `match args.origin` step of `do_metadata`: `AutoOrigin` takes the
minimum `x_offset` and minimum `y_offset` over the (already filtered)
rows, `XYOrigin` the explicit pair, absent origin `(0, 0)`. -/
def originFor (origin : Option Origin) (rows : List ExportRow) :
    Except ReportError (ℤ × ℤ) :=
  match origin with
  | some .auto => do
      let xo ← minList (rows.map ExportRow.x_offset)
      let yo ← minList (rows.map ExportRow.y_offset)
      .ok (xo, yo)
  | some (.xy x y) => .ok (x, y)
  | Option.none => .ok (0, 0)

/-! ## Theorems -/

/-- Helper: `get_layer` succeeds on every non-empty path. -/
theorem get_layer_isSome (path : List String) :
    ∀ (g : GroupNode) (ctx : Chain), path ≠ [] →
      (g.get_layer ctx path).isSome := by
  induction path with
  | nil => intro g ctx h; exact absurd rfl h
  | cons head tail ih =>
      intro g ctx _
      cases tail with
      | nil => simp [GroupNode.get_layer]
      | cons t ts =>
          simp only [GroupNode.get_layer]
          cases hlk : g.groups.lookup head with
          | none => simp
          | some child => exact ih child (g.chain ctx) (by simp)

/-- C4: for every node of the resolved hierarchy (any `DefaultsMixin`
level `Chain.node own parent`, and any `Layer` leaf), the effective
action equals the node's own explicit value when set, else the parent's
effective value — and analogously for mask and resize — and the Schema
root constructed with unset defaults bottoms out at `LEAVE` for action
and mask and no resize. -/
theorem C4_effective_resolution :
    ∀ (own : Defaults) (parent : Chain) (a m : Action) (r : Resize),
      ((own.action = some a →
          (Chain.node own parent).default_action = a)
        ∧ (own.action = Option.none →
          (Chain.node own parent).default_action = parent.default_action))
      ∧ ((own.mask = some m →
          (Chain.node own parent).default_mask = m)
        ∧ (own.mask = Option.none →
          (Chain.node own parent).default_mask = parent.default_mask))
      ∧ ((own.resize = some r →
          (Chain.node own parent).default_resize = some r)
        ∧ (own.resize = Option.none →
          (Chain.node own parent).default_resize = parent.default_resize))
      ∧ ((Layer.mk own parent).action = (Chain.node own parent).default_action
        ∧ (Layer.mk own parent).mask = (Chain.node own parent).default_mask
        ∧ (Layer.mk own parent).resize = (Chain.node own parent).default_resize)
      ∧ ((Chain.root SchemaDefaults.unset).default_action = Action.LEAVE
        ∧ (Chain.root SchemaDefaults.unset).default_mask = Action.LEAVE
        ∧ (Chain.root SchemaDefaults.unset).default_resize = Option.none) := by
  intro own parent a m r
  refine ⟨⟨fun hset => ?_, fun hnone => ?_⟩,
    ⟨fun hset => ?_, fun hnone => ?_⟩,
    ⟨fun hset => ?_, fun hnone => ?_⟩,
    ⟨?_, ?_, ?_⟩, ?_, ?_, ?_⟩ <;>
    simp [Chain.default_action, Chain.default_mask, Chain.default_resize,
      Layer.action, Layer.mask, Layer.resize, SchemaDefaults.unset, *]

/-- Witness for C4 at a concrete node: an explicit `SHOW` overrides the
root's `LEAVE`. -/
theorem C4_effective_resolution_witness :
    (Chain.node ⟨some Action.SHOW, Option.none, Option.none⟩
      (Chain.root SchemaDefaults.unset)).default_action = Action.SHOW :=
  (C4_effective_resolution ⟨some Action.SHOW, Option.none, Option.none⟩
    (Chain.root SchemaDefaults.unset) Action.SHOW Action.LEAVE
    (Resize.scale 1)).1.1 rfl

/-- C5: `get_layer` succeeds on every non-empty path, and when a prefix
element (`head` followed by a non-empty `tail`) names no registered child
group it returns the current group's unconfigured default layer, whose
resolved action and mask equal that group's effective defaults. -/
theorem C5_get_layer_degrades :
    ∀ (g : GroupNode) (ctx : Chain) (path : List String) (head : String)
      (tail : List String),
      (path ≠ [] → (g.get_layer ctx path).isSome)
      ∧ (tail ≠ [] → g.groups.lookup head = Option.none →
          g.get_layer ctx (head :: tail)
              = some ⟨Defaults.empty, g.chain ctx⟩
            ∧ (Layer.mk Defaults.empty (g.chain ctx)).action
              = (g.chain ctx).default_action
            ∧ (Layer.mk Defaults.empty (g.chain ctx)).mask
              = (g.chain ctx).default_mask) := by
  intro g ctx path head tail
  refine ⟨get_layer_isSome path g ctx, fun htail hlk => ⟨?_, ?_, ?_⟩⟩
  · cases tail with
    | nil => exact absurd rfl htail
    | cons t ts => simp [GroupNode.get_layer, hlk]
  · simp [Layer.action, Chain.default_action, Defaults.empty,
      GroupNode.chain]
  · simp [Layer.mask, Chain.default_mask, Defaults.empty, GroupNode.chain]

/-- Witness for C5: a path through an unregistered group `"missing"`
resolves to the root group's default layer of an export whose group tree
is empty. -/
theorem C5_get_layer_degrades_witness :
    (GroupNode.mk Defaults.empty [] []).get_layer
        (Chain.root SchemaDefaults.unset) ["missing", "leaf"]
      = some ⟨Defaults.empty,
          (GroupNode.mk Defaults.empty [] []).chain
            (Chain.root SchemaDefaults.unset)⟩ :=
  ((C5_get_layer_degrades (GroupNode.mk Defaults.empty [] [])
      (Chain.root SchemaDefaults.unset) ["missing", "leaf"] "missing"
      ["leaf"]).2 (by simp) rfl).1

/-- A minimal XCF node to attach an export to. -/
def xcfExample : XCFNode := ⟨"/work/a.xcf", Defaults.empty, []⟩

/-- A well-formed export model whose crop is the bounding-box algorithm
selector and whose rule trees are empty — a valid declarative tree by the
shape validation of models.py. -/
def exportModelBBox : ExportModel :=
  ⟨Option.none, some CropModel.algorithm, Option.none,
   RuleArg.none, RuleArg.none, RuleArg.none⟩

/-- C1 (code bug): converting a valid export model — here one whose crop
field is the bounding-box algorithm selector — raises `AttributeError`,
because the crop `match` in `add_export_from_model` names the
non-existent class `models.CropAlgorithem` (models.py defines
`CropAlgorithm`); the intended match (with the attribute that exists)
would have produced the bounding-box crop.  The duplicate-group check the
claim also describes does behave as stated: registering two groups named
`"ui"` under one parent fails with the structural `KeyError`. -/
theorem C1_add_export_crop_match_raises :
    add_export_from_model "/work" xcfExample "out.png" exportModelBBox
        = .error (BuildError.attributeError "CropAlgorithem")
      ∧ matchExportCropIntended exportModelBBox.crop
        = .ok (some Crop.boundingBox)
      ∧ add_actions_from_model (GroupNode.mk Defaults.empty [] [])
          (RuleArg.list
            [RuleNode.group "ui" Option.none
               RuleArg.none RuleArg.none RuleArg.none,
             RuleNode.group "ui" Option.none
               RuleArg.none RuleArg.none RuleArg.none])
          Action.SHOW
        = .error (BuildError.duplicateGroup "ui") :=
  ⟨rfl, rfl, rfl⟩

/-- Helper: upserting the same row twice is the same as once. -/
theorem upsertRow_idem (t : ExportsTable) (r : ExportRow) :
    upsertRow (upsertRow t r) r = upsertRow t r := by
  induction t with
  | nil => simp [upsertRow]
  | cons r0 rest ih =>
      by_cases h : r0.path = r.path
      · simp [upsertRow, h]
      · simp [upsertRow, h, ih]

/-- Helper: after an upsert into a table with pairwise distinct paths,
the rows with the upserted path are exactly the new row. -/
theorem upsertRow_filter (t : ExportsTable) (r : ExportRow)
    (hnd : (t.map ExportRow.path).Nodup) :
    (upsertRow t r).filter (fun row => row.path == r.path) = [r] := by
  induction t with
  | nil => simp [upsertRow]
  | cons r0 rest ih =>
      simp only [List.map_cons, List.nodup_cons] at hnd
      by_cases h : r0.path = r.path
      · simp only [upsertRow, if_pos h, List.filter_cons, beq_self_eq_true,
          if_pos]
        have : ∀ row ∈ rest, ¬(row.path == r.path) = true := by
          intro row hrow hbeq
          exact hnd.1 (h ▸ beq_iff_eq.mp hbeq ▸ List.mem_map_of_mem ExportRow.path hrow)
        simp only [List.cons.injEq, true_and]
        exact List.filter_eq_nil_iff.mpr this
      · have hbeq : (r0.path == r.path) = false := beq_eq_false_iff_ne.mpr h
        simp [upsertRow, h, List.filter_cons, hbeq, ih hnd.2]

/-- C6: within the store's non-negativity constraints, `save_export`
succeeds, upserting the row keyed by `path`, is idempotent — a second
identical call leaves the table unchanged — and the resulting table holds
exactly one row for that path, carrying exactly those values. -/
theorem C6_save_export_idempotent :
    ∀ (t : ExportsTable) (p : String) (w h x y : ℤ),
      (t.map ExportRow.path).Nodup →
      0 ≤ w → 0 ≤ h → 0 ≤ x → 0 ≤ y →
      ∃ t', save_export t p w h x y = .ok t'
        ∧ save_export t' p w h x y = .ok t'
        ∧ t'.filter (fun row => row.path == p) = [⟨p, w, h, x, y⟩] := by
  intro t p w h x y hnd hw hh hx hy
  refine ⟨upsertRow t ⟨p, w, h, x, y⟩, ?_, ?_, ?_⟩
  · simp [save_export, hw, hh, hx, hy]
  · simp [save_export, hw, hh, hx, hy, upsertRow_idem]
  · exact upsertRow_filter t ⟨p, w, h, x, y⟩ hnd

/-- Witness for C6 on a one-row table whose row gets overwritten. -/
theorem C6_save_export_idempotent_witness :
    ∃ t', save_export [⟨"out.png", 1, 1, 0, 0⟩] "out.png" 8 6 2 3 = .ok t'
      ∧ save_export t' "out.png" 8 6 2 3 = .ok t'
      ∧ t'.filter (fun row => row.path == "out.png")
        = [⟨"out.png", 8, 6, 2, 3⟩] :=
  C6_save_export_idempotent [⟨"out.png", 1, 1, 0, 0⟩] "out.png" 8 6 2 3
    (by simp) (by norm_num) (by norm_num) (by norm_num) (by norm_num)

/-- Helper: a `min`-fold is a lower bound of its seed and of every
element. -/
theorem foldl_min_le (xs : List ℤ) :
    ∀ (a : ℤ), xs.foldl min a ≤ a ∧ ∀ x ∈ xs, xs.foldl min a ≤ x := by
  induction xs with
  | nil => intro a; simp
  | cons x xs ih =>
      intro a
      simp only [List.foldl_cons]
      refine ⟨le_trans (ih (min a x)).1 (min_le_left a x), ?_⟩
      intro z hz
      rcases List.mem_cons.mp hz with h | h
      · subst h
        exact le_trans (ih (min a z)).1 (min_le_right a z)
      · exact (ih (min a x)).2 z h

/-- Helper: a `min`-fold is attained by its seed or by an element. -/
theorem foldl_min_mem (xs : List ℤ) :
    ∀ (a : ℤ), xs.foldl min a = a ∨ xs.foldl min a ∈ xs := by
  induction xs with
  | nil => intro a; simp
  | cons x xs ih =>
      intro a
      simp only [List.foldl_cons]
      rcases ih (min a x) with h | h
      · rcases le_total a x with hax | hxa
        · exact Or.inl (by rw [h, min_eq_left hax])
        · refine Or.inr ?_
          rw [h, min_eq_right hxa]
          exact List.mem_cons_self x xs
      · exact Or.inr (List.mem_cons_of_mem x h)

/-- Helper: Python `min` over a non-empty list returns a member that is a
lower bound. -/
theorem minList_spec (xs : List ℤ) (hne : xs ≠ []) :
    ∃ m, minList xs = .ok m ∧ m ∈ xs ∧ ∀ x ∈ xs, m ≤ x := by
  cases xs with
  | nil => exact absurd rfl hne
  | cons x xs =>
      refine ⟨xs.foldl min x, rfl, ?_, ?_⟩
      · rcases foldl_min_mem xs x with h | h
        · rw [h]
          exact List.mem_cons_self x xs
        · exact List.mem_cons_of_mem x h
      · intro z hz
        rcases List.mem_cons.mp hz with h | h
        · exact h ▸ (foldl_min_le xs x).1
        · exact (foldl_min_le xs x).2 z h

/-- C8: on a non-empty row collection the `Auto` origin of the metadata
report is the minimum `x_offset` paired with the minimum `y_offset` (both
attained by some row), so every row's derived left and top coordinates
are non-negative; on an empty collection `Auto` is fatal (Python `min`
raises `ValueError`). -/
theorem C8_auto_origin :
    ∀ (rows : List ExportRow),
      (rows ≠ [] →
        ∃ xo yo, originFor (some Origin.auto) rows = .ok (xo, yo)
          ∧ (∀ r ∈ rows, xo ≤ r.x_offset ∧ yo ≤ r.y_offset
              ∧ 0 ≤ r.x_offset - xo ∧ 0 ≤ r.y_offset - yo)
          ∧ (∃ r ∈ rows, r.x_offset = xo)
          ∧ (∃ r ∈ rows, r.y_offset = yo))
      ∧ originFor (some Origin.auto) [] = .error ReportError.emptySequence := by
  intro rows
  constructor
  · intro hne
    obtain ⟨xo, hxo, hxmem, hxle⟩ :=
      minList_spec (rows.map ExportRow.x_offset) (by simpa using hne)
    obtain ⟨yo, hyo, hymem, hyle⟩ :=
      minList_spec (rows.map ExportRow.y_offset) (by simpa using hne)
    refine ⟨xo, yo, ?_, ?_, ?_, ?_⟩
    · simp only [originFor, hxo, hyo]
      rfl
    · intro r hr
      have h1 := hxle _ (List.mem_map_of_mem ExportRow.x_offset hr)
      have h2 := hyle _ (List.mem_map_of_mem ExportRow.y_offset hr)
      exact ⟨h1, h2, by omega, by omega⟩
    · obtain ⟨r, hr, hre⟩ := List.mem_map.mp hxmem
      exact ⟨r, hr, hre⟩
    · obtain ⟨r, hr, hre⟩ := List.mem_map.mp hymem
      exact ⟨r, hr, hre⟩
  · rfl

/-- Witness for C8 on the spec's own two-row scenario: offsets `(5,5)`
and `(20,3)` yield origin `(5,3)`. -/
theorem C8_auto_origin_witness :
    ∃ xo yo,
      originFor (some Origin.auto)
          [⟨"a.png", 2, 2, 5, 5⟩, ⟨"b.png", 2, 2, 20, 3⟩] = .ok (xo, yo)
        ∧ (∀ r ∈ [ExportRow.mk "a.png" 2 2 5 5, ExportRow.mk "b.png" 2 2 20 3],
            xo ≤ r.x_offset ∧ yo ≤ r.y_offset
              ∧ 0 ≤ r.x_offset - xo ∧ 0 ≤ r.y_offset - yo)
        ∧ (∃ r ∈ [ExportRow.mk "a.png" 2 2 5 5, ExportRow.mk "b.png" 2 2 20 3],
            r.x_offset = xo)
        ∧ (∃ r ∈ [ExportRow.mk "a.png" 2 2 5 5, ExportRow.mk "b.png" 2 2 20 3],
            r.y_offset = yo) :=
  (C8_auto_origin [⟨"a.png", 2, 2, 5, 5⟩, ⟨"b.png", 2, 2, 20, 3⟩]).1
    (by simp)

/-- Helper: folding path-keyed DELETEs over a worklist `M` that covers
every on-disk-missing row of `t` (and only mentions missing paths) leaves
exactly the rows whose path exists on disk. -/
theorem foldl_delete_filter (onDisk : String → Bool) (M : List ExportRow)
    (hM : ∀ m ∈ M, onDisk m.path = false) :
    ∀ (t : ExportsTable),
      (∀ r ∈ t, onDisk r.path = false → r.path ∈ M.map ExportRow.path) →
      M.foldl (fun acc m => acc.filter (fun row => row.path ≠ m.path)) t
        = t.filter (fun r => onDisk r.path) := by
  induction M with
  | nil =>
      intro t ht
      simp only [List.foldl_nil]
      symm
      apply List.filter_eq_self.mpr
      intro r hr
      cases h : onDisk r.path
      · exact absurd (ht r hr h) (List.not_mem_nil _)
      · rfl
  | cons m M' ih =>
      intro t ht
      simp only [List.foldl_cons]
      rw [ih (fun m' hm' => hM m' (List.mem_cons_of_mem m hm'))
        (t.filter (fun row => row.path ≠ m.path)) ?_]
      · rw [List.filter_filter]
        apply List.filter_congr
        intro r _
        cases h : onDisk r.path
        · simp
        · have hne : r.path ≠ m.path := by
            intro he
            have hm := hM m (List.mem_cons_self m M')
            rw [← he, h] at hm
            exact Bool.true_eq_false.mp hm
          simp [hne]
      · intro r hr hrd
        have hrt := List.mem_filter.mp hr
        have := ht r hrt.1 hrd
        rcases List.mem_map.mp this with ⟨m', hm', he⟩
        rcases List.mem_cons.mp hm' with h | h
        · exfalso
          apply absurd (List.of_mem_filter hr)
          subst h
          simp [← he]
        · exact he ▸ List.mem_map_of_mem ExportRow.path h

/-- Helper: the DELETE batch of `remove_data_for_missing_files` keeps
exactly the rows whose path still exists on disk, in order. -/
theorem pruneBody_eq_filter (onDisk : String → Bool) (t : ExportsTable) :
    pruneBody onDisk t = t.filter (fun r => onDisk r.path) := by
  unfold pruneBody
  apply foldl_delete_filter
  · intro m hm
    simpa using List.of_mem_filter hm
  · intro r hr hrd
    apply List.mem_map_of_mem ExportRow.path
    apply List.mem_filter.mpr
    exact ⟨List.mem_mergeSort.mpr hr, by simp [hrd]⟩

/-- C7: `remove_data_for_missing_files` deletes exactly the rows whose
path no longer names an existing file — the surviving table is the
original filtered to on-disk paths in order, so a row survives iff it
was present and its path exists — the batch commits (no error), and the
`transaction` wrapper it runs in is all-or-nothing: a committed body is
exactly the body's result, a failed body leaves the pre-transaction
state. -/
theorem C7_prune_missing :
    ∀ (onDisk : String → Bool) (t : ExportsTable),
      ((remove_data_for_missing_files onDisk t).1
          = t.filter (fun r => onDisk r.path)
        ∧ (remove_data_for_missing_files onDisk t).2 = Option.none
        ∧ (∀ r : ExportRow,
            r ∈ (remove_data_for_missing_files onDisk t).1
              ↔ r ∈ t ∧ onDisk r.path = true))
      ∧ (∀ (body : ExportsTable → Except DBError ExportsTable)
          (t0 t1 : ExportsTable),
          (transactionRun t0 body = (t1, Option.none) → body t0 = .ok t1)
          ∧ (∀ e, transactionRun t0 body = (t1, some e) → t1 = t0)) := by
  intro onDisk t
  have hmain : (remove_data_for_missing_files onDisk t).1
      = t.filter (fun r => onDisk r.path) := by
    simp only [remove_data_for_missing_files, transactionRun]
    exact pruneBody_eq_filter onDisk t
  refine ⟨⟨hmain, rfl, ?_⟩, ?_⟩
  · intro r
    rw [hmain]
    exact List.mem_filter
  · intro body t0 t1
    constructor
    · intro h
      unfold transactionRun at h
      cases hb : body t0 with
      | ok v =>
          rw [hb] at h
          have h1 : v = t1 := congrArg Prod.fst h
          rw [h1]
      | error e =>
          rw [hb] at h
          exact absurd (congrArg Prod.snd h) (by simp)
    · intro e h
      unfold transactionRun at h
      cases hb : body t0 with
      | ok v =>
          rw [hb] at h
          exact absurd (congrArg Prod.snd h) (by simp)
      | error e' =>
          rw [hb] at h
          exact (congrArg Prod.fst h).symm

/-- Witness for C7: a surviving row is exactly a present row whose path
exists on disk. -/
theorem C7_prune_missing_witness :
    ExportRow.mk "a.png" 1 1 0 0
      ∈ (remove_data_for_missing_files (fun _ => true)
          [⟨"a.png", 1, 1, 0, 0⟩]).1 :=
  ((C7_prune_missing (fun _ => true) [⟨"a.png", 1, 1, 0, 0⟩]).1.2.2
    ⟨"a.png", 1, 1, 0, 0⟩).mpr ⟨List.mem_singleton.mpr rfl, rfl⟩

/-- C3: in `create_export` the resize step runs after the crop step and
receives the cropped dimensions and the crop rectangle's top-left as the
tracked offset (first conjunct: the pipeline is exactly crop followed by
`applyResize` on the cropped geometry).  On those inputs: `Scale(f)`
yields final offset `(round(f·x), round(f·y))`; `WidthHeight` with only
`width = W` applies the factor `W / current-width` uniformly to both axes
and to the offset; with both dimensions given each axis (and its offset
coordinate) scales by its own factor. -/
theorem C3_resize_after_crop :
    ∀ (scaleOk : ℤ → ℤ → Bool) (doc : DocState) (e : ExportNode)
      (ctx : Chain) (bb : BBox) (w h x y W H : ℤ) (f : ℚ),
      (cropRegion { doc with layers := applyActionsList e ctx [] doc.layers }
          e.crop = .ok (some bb) →
        create_export scaleOk doc e ctx
          = (applyResize scaleOk bb.width bb.height bb.x_offset bb.y_offset
              (e.resize ctx)).map
              (fun r =>
                ({ width := r.1, height := r.2.1,
                   layers := applyActionsList e ctx [] doc.layers },
                 ⟨r.1, r.2.1, r.2.2.1, r.2.2.2⟩)))
      ∧ (scaleOk (pyRound (f * w)) (pyRound (f * h)) = true →
          applyResize scaleOk w h x y (some (Resize.scale f))
            = .ok (pyRound (f * w), pyRound (f * h),
                   pyRound (f * x), pyRound (f * y)))
      ∧ (w ≠ 0 → scaleOk W (pyRound ((W : ℚ) / (w : ℚ) * h)) = true →
          applyResize scaleOk w h x y
              (some (Resize.widthHeight (some W) Option.none))
            = .ok (W, pyRound ((W : ℚ) / (w : ℚ) * h),
                   pyRound ((W : ℚ) / (w : ℚ) * x),
                   pyRound ((W : ℚ) / (w : ℚ) * y)))
      ∧ (w ≠ 0 → h ≠ 0 → scaleOk W H = true →
          applyResize scaleOk w h x y
              (some (Resize.widthHeight (some W) (some H)))
            = .ok (W, H, pyRound ((W : ℚ) / (w : ℚ) * x),
                   pyRound ((H : ℚ) / (h : ℚ) * y))) := by
  intro scaleOk doc e ctx bb w h x y W H f
  refine ⟨fun hcrop => ?_, fun hsc => ?_, fun hw hsc => ?_,
    fun hw hh hsc => ?_⟩
  · simp only [create_export, hcrop]
    cases har : applyResize scaleOk bb.width bb.height bb.x_offset
        bb.y_offset (e.resize ctx) with
    | ok v =>
        obtain ⟨fw, fh, fx, fy⟩ := v
        simp [Bind.bind, Except.bind, har, Except.map]
    | error err => simp [Bind.bind, Except.bind, har, Except.map]
  · simp only [applyResize, hsc, if_true]
  · simp only [applyResize, if_neg hw, hsc, if_true]
  · have hor : ¬(w = 0 ∨ h = 0) := by
      intro hc
      rcases hc with hc | hc
      · exact hw hc
      · exact hh hc
    simp only [applyResize, if_neg hor, hsc, if_true]

/-- Witness for C3 on the spec's own scenario: `resize: {width: 100}` on a
cropped document of size 200×300 with crop offset `(10, 20)` gives final
size `100×150` and offset `(5, 10)`. -/
theorem C3_resize_after_crop_witness :
    applyResize (fun _ _ => true) 200 300 10 20
        (some (Resize.widthHeight (some 100) Option.none))
      = .ok (100, 150, 5, 10) := by
  have h := (C3_resize_after_crop (fun _ _ => true) ⟨200, 300, []⟩
    ⟨"p", Option.none, Defaults.empty, GroupNode.mk Defaults.empty [] []⟩
    (Chain.root SchemaDefaults.unset) ⟨200, 300, 10, 20⟩
    200 300 10 20 100 0 1).2.2.1 (by norm_num) rfl
  rw [h]
  norm_num [pyRound]

/-- The visible non-group leaves scanned by `get_bounding_box`: the
pruning traversal restricted to non-group layers. -/
def visibleLeaves (layers : List GLayer) : List GLayer :=
  ((traverseList (fun l => l.visible) [] layers).map Prod.fst).filter
    (fun l => !l.isGroup)

mutual
/-- Spec-side definition (following the spec's words, for comparison with
the source's pruning traversal): every leaf of the forest paired with the
visibility flags of all its ancestor group layers, with no pruning. -/
def allLeavesWithAncestorsList (anc : List Bool) :
    List GLayer → List (GLayer × List Bool)
  | [] => []
  | l :: rest =>
      allLeavesWithAncestorsOne anc l ++ allLeavesWithAncestorsList anc rest

/-- One layer of the spec-side leaf enumeration. -/
def allLeavesWithAncestorsOne (anc : List Bool) :
    GLayer → List (GLayer × List Bool)
  | .leaf n v lt tp w h m => [(GLayer.leaf n v lt tp w h m, anc)]
  | .group _ v _ _ _ _ _ children =>
      allLeavesWithAncestorsList (anc ++ [v]) children
end

/-- Spec-side characterisation: the leaves whose own visibility flag is
set and all of whose ancestor group layers are visible. -/
def specEffectivelyVisibleLeaves (layers : List GLayer) : List GLayer :=
  ((allLeavesWithAncestorsList [] layers).filter
    (fun p => p.1.visible && p.2.all id)).map Prod.fst

mutual
/-- Helper: below an invisible ancestor no leaf passes the spec-side
visibility filter. -/
theorem allLeaves_filter_nil_list (anc : List Bool)
    (hanc : anc.all id = false) :
    (ls : List GLayer) →
      (allLeavesWithAncestorsList anc ls).filter
          (fun p => p.1.visible && p.2.all id) = []
  | [] => by simp [allLeavesWithAncestorsList]
  | l :: rest => by
      rw [allLeavesWithAncestorsList, List.filter_append,
        allLeaves_filter_nil_one anc hanc l,
        allLeaves_filter_nil_list anc hanc rest]
      rfl

/-- Helper (single layer): below an invisible ancestor no leaf passes the
spec-side visibility filter. -/
theorem allLeaves_filter_nil_one (anc : List Bool)
    (hanc : anc.all id = false) :
    (l : GLayer) →
      (allLeavesWithAncestorsOne anc l).filter
          (fun p => p.1.visible && p.2.all id) = []
  | .leaf n v lt tp w h m => by
      simp [allLeavesWithAncestorsOne, hanc]
  | .group n v lt tp w h m children => by
      have h2 : ((anc ++ [v]).all id) = false := by
        simp [List.all_append, hanc]
      simpa [allLeavesWithAncestorsOne] using
        allLeaves_filter_nil_list (anc ++ [v]) h2 children
end

mutual
/-- Helper: under all-visible ancestors, the pruning traversal's
non-group layers are exactly the spec-side effectively visible leaves. -/
theorem pruned_eq_spec_list (path : List String) (anc : List Bool)
    (hanc : anc.all id = true) :
    (ls : List GLayer) →
      ((traverseList (fun l => l.visible) path ls).map Prod.fst).filter
          (fun l => !l.isGroup)
        = ((allLeavesWithAncestorsList anc ls).filter
            (fun p => p.1.visible && p.2.all id)).map Prod.fst
  | [] => by simp [traverseList, allLeavesWithAncestorsList]
  | l :: rest => by
      rw [traverseList, allLeavesWithAncestorsList, List.map_append,
        List.filter_append, List.filter_append, List.map_append,
        pruned_eq_spec_one path anc hanc l,
        pruned_eq_spec_list path anc hanc rest]

/-- Helper (single layer) for `pruned_eq_spec_list`. -/
theorem pruned_eq_spec_one (path : List String) (anc : List Bool)
    (hanc : anc.all id = true) :
    (l : GLayer) →
      ((traverseOne (fun l => l.visible) path l).map Prod.fst).filter
          (fun l => !l.isGroup)
        = ((allLeavesWithAncestorsOne anc l).filter
            (fun p => p.1.visible && p.2.all id)).map Prod.fst
  | .leaf n v lt tp w h m => by
      cases v
      · simp [traverseOne, allLeavesWithAncestorsOne, GLayer.visible,
          GLayer.isGroup]
      · simp [traverseOne, allLeavesWithAncestorsOne, GLayer.visible,
          GLayer.isGroup, hanc]
  | .group n v lt tp w h m children => by
      cases v
      · have h2 : ((anc ++ [false]).all id) = false := by simp
        have hnil := allLeaves_filter_nil_list (anc ++ [false]) h2 children
        rw [show allLeavesWithAncestorsOne anc
            (GLayer.group n false lt tp w h m children)
            = allLeavesWithAncestorsList (anc ++ [false]) children from rfl,
          hnil]
        rfl
      · have h2 : ((anc ++ [true]).all id) = true := by simp [hanc]
        exact pruned_eq_spec_list (path ++ [n]) (anc ++ [true]) h2 children
end

/-- Helper: the bounding-box fold ignores group layers, so it equals the
fold over the non-group layers alone. -/
theorem foldl_bboxStep_filter (L : List GLayer) :
    ∀ acc : BBoxAcc,
      L.foldl bboxStep acc = (L.filter (fun l => !l.isGroup)).foldl bboxStep acc := by
  induction L with
  | nil => intro acc; rfl
  | cons l rest ih =>
      intro acc
      cases hg : l.isGroup
      · simp only [List.foldl_cons, List.filter_cons, hg]
        rw [ih]
        rfl
      · have hstep : bboxStep acc l = acc := by simp [bboxStep, hg]
        simp only [List.foldl_cons, List.filter_cons, hg, hstep]
        rw [ih]
        rfl

/-- C10: the bounding-box traversal prunes whole subtrees at the first
invisible layer — the visible non-group leaves it scans are exactly the
leaves whose own flag is set and all of whose ancestor groups are visible
(so a visible leaf inside a hidden group is excluded) — and the fold
computing the bounding box ranges over exactly those leaves. -/
theorem C10_traversal_prunes :
    ∀ (layers : List GLayer) (acc : BBoxAcc),
      visibleLeaves layers = specEffectivelyVisibleLeaves layers
      ∧ ((traverseList (fun l => l.visible) [] layers).map Prod.fst).foldl
            bboxStep acc
          = (visibleLeaves layers).foldl bboxStep acc := by
  intro layers acc
  constructor
  · exact pruned_eq_spec_list [] [] rfl layers
  · exact foldl_bboxStep_filter _ acc

/-- Helper: one bounding-box step only shrinks the minima and grows the
maxima. -/
theorem bboxStep_le (st : BBoxAcc) (l : GLayer) :
    (bboxStep st l).min_left ≤ st.min_left
    ∧ (bboxStep st l).min_top ≤ st.min_top
    ∧ st.max_right ≤ (bboxStep st l).max_right
    ∧ st.max_bottom ≤ (bboxStep st l).max_bottom := by
  unfold bboxStep
  split
  · exact ⟨le_refl _, le_refl _, le_refl _, le_refl _⟩
  · exact ⟨min_le_right _ _, min_le_right _ _, le_max_right _ _,
      le_max_right _ _⟩

/-- Helper: after its step, a non-group layer's rectangle lies within the
extrema. -/
theorem bboxStep_mem (st : BBoxAcc) (l : GLayer) (hl : ¬l.isGroup = true) :
    (bboxStep st l).min_left ≤ l.left
    ∧ (bboxStep st l).min_top ≤ l.top
    ∧ l.left + (l.width : ℤ) ≤ (bboxStep st l).max_right
    ∧ l.top + (l.height : ℤ) ≤ (bboxStep st l).max_bottom := by
  unfold bboxStep
  rw [if_neg hl]
  exact ⟨min_le_left _ _, min_le_left _ _, le_max_left _ _, le_max_left _ _⟩

/-- Helper: the bounding-box fold shrinks the minima, grows the maxima,
and bounds every non-group layer's rectangle. -/
theorem bbox_foldl_spec (L : List GLayer) :
    ∀ acc : BBoxAcc,
      (L.foldl bboxStep acc).min_left ≤ acc.min_left
      ∧ (L.foldl bboxStep acc).min_top ≤ acc.min_top
      ∧ acc.max_right ≤ (L.foldl bboxStep acc).max_right
      ∧ acc.max_bottom ≤ (L.foldl bboxStep acc).max_bottom
      ∧ ∀ l ∈ L, ¬l.isGroup = true →
          (L.foldl bboxStep acc).min_left ≤ l.left
          ∧ (L.foldl bboxStep acc).min_top ≤ l.top
          ∧ l.left + (l.width : ℤ) ≤ (L.foldl bboxStep acc).max_right
          ∧ l.top + (l.height : ℤ) ≤ (L.foldl bboxStep acc).max_bottom := by
  induction L with
  | nil => intro acc; simp
  | cons l rest ih =>
      intro acc
      obtain ⟨h1, h2, h3, h4, h5⟩ := ih (bboxStep acc l)
      obtain ⟨s1, s2, s3, s4⟩ := bboxStep_le acc l
      simp only [List.foldl_cons]
      refine ⟨le_trans h1 s1, le_trans h2 s2, le_trans s3 h3,
        le_trans s4 h4, ?_⟩
      intro z hz hzg
      rcases List.mem_cons.mp hz with h | h
      · subst h
        obtain ⟨m1, m2, m3, m4⟩ := bboxStep_mem acc z hzg
        exact ⟨le_trans h1 m1, le_trans h2 m2, le_trans m3 h3,
          le_trans m4 h4⟩
      · exact h5 z h hzg

/-- Equality of `Except` results is decidable when both components are. -/
instance {ε α : Type} [DecidableEq ε] [DecidableEq α] :
    DecidableEq (Except ε α) := fun x y =>
  match x, y with
  | .ok a, .ok b =>
      if h : a = b then isTrue (by rw [h])
      else isFalse (fun hc => h (Except.ok.inj hc))
  | .error e, .error f =>
      if h : e = f then isTrue (by rw [h])
      else isFalse (fun hc => h (Except.error.inj hc))
  | .ok _, .error _ => isFalse (fun hc => Except.noConfusion hc)
  | .error _, .ok _ => isFalse (fun hc => Except.noConfusion hc)

/-- The containment property the claim asserts of the bounding box: the
result rectangle contains every visible non-group leaf's rectangle. -/
def bboxContainsAll (bb : BBox) (layers : List GLayer) : Prop :=
  ∀ l ∈ visibleLeaves layers,
    bb.x_offset ≤ l.left ∧ bb.y_offset ≤ l.top
    ∧ l.left + (l.width : ℤ) ≤ bb.x_offset + bb.width
    ∧ l.top + (l.height : ℤ) ≤ bb.y_offset + bb.height

/-- C2 (amended): on a document with non-negative dimensions, a
successful `get_bounding_box` is clamped within
`[0, doc_width] × [0, doc_height]` — offsets, width and height are
non-negative and the rectangle stays inside the document — and it
contains the within-document portion (the intersection with the document
bounds) of every visible non-group leaf's rectangle; over zero visible
non-group leaves it fails whenever the document has positive width or
height. -/
theorem C2_bounding_box_amended :
    ∀ (dw dh : ℤ) (layers : List GLayer),
      0 ≤ dw → 0 ≤ dh →
      (∀ bb, get_bounding_box dw dh layers = .ok bb →
        (0 ≤ bb.x_offset ∧ 0 ≤ bb.y_offset ∧ 0 ≤ bb.width ∧ 0 ≤ bb.height
          ∧ bb.x_offset + bb.width ≤ dw ∧ bb.y_offset + bb.height ≤ dh)
        ∧ ∀ l ∈ visibleLeaves layers,
            bb.x_offset ≤ max l.left 0
            ∧ bb.y_offset ≤ max l.top 0
            ∧ min (l.left + (l.width : ℤ)) dw ≤ bb.x_offset + bb.width
            ∧ min (l.top + (l.height : ℤ)) dh ≤ bb.y_offset + bb.height)
      ∧ ((0 < dw ∨ 0 < dh) → visibleLeaves layers = [] →
          get_bounding_box dw dh layers = .error ExportError.noBoundingBox) := by
  intro dw dh layers hdw hdh
  set L := (traverseList (fun l => l.visible) [] layers).map Prod.fst with hL
  set res := L.foldl bboxStep ⟨dw, dh, 0, 0⟩ with hres
  obtain ⟨f1, f2, f3, f4, f5⟩ := bbox_foldl_spec L ⟨dw, dh, 0, 0⟩
  rw [← hres] at f1 f2 f3 f4 f5
  have g1 : res.min_left ≤ dw := f1
  have g2 : res.min_top ≤ dh := f2
  have g3 : (0 : ℤ) ≤ res.max_right := f3
  have g4 : (0 : ℤ) ≤ res.max_bottom := f4
  constructor
  · intro bb hbb
    unfold get_bounding_box at hbb
    rw [← hL, ← hres] at hbb
    by_cases hdeg : res.max_right < res.min_left ∨ res.max_bottom < res.min_top
    · rw [if_pos hdeg] at hbb
      exact absurd hbb (by simp)
    · rw [if_neg hdeg] at hbb
      push_neg at hdeg
      obtain ⟨hd1, hd2⟩ := hdeg
      have hE : (⟨min res.max_right dw - max res.min_left 0,
          min res.max_bottom dh - max res.min_top 0,
          max res.min_left 0, max res.min_top 0⟩ : BBox) = bb :=
        Except.ok.inj hbb
      have hx : bb.x_offset = max res.min_left 0 := by rw [← hE]
      have hy : bb.y_offset = max res.min_top 0 := by rw [← hE]
      have hw : bb.width = min res.max_right dw - max res.min_left 0 := by
        rw [← hE]
      have hh : bb.height = min res.max_bottom dh - max res.min_top 0 := by
        rw [← hE]
      constructor
      · rw [hx, hy, hw, hh]
        refine ⟨le_max_right _ _, le_max_right _ _, ?_, ?_, ?_, ?_⟩ <;> omega
      · intro l hl
        have hlmem := List.mem_filter.mp hl
        have hlg : ¬l.isGroup = true := by
          have := hlmem.2
          simp at this
          simp [this]
        obtain ⟨m1, m2, m3, m4⟩ := f5 l hlmem.1 hlg
        rw [hx, hy, hw, hh]
        refine ⟨?_, ?_, ?_, ?_⟩ <;> omega
  · intro hpos hempty
    unfold get_bounding_box
    rw [← hL]
    have hfold : L.foldl bboxStep ⟨dw, dh, 0, 0⟩ = ⟨dw, dh, 0, 0⟩ := by
      rw [foldl_bboxStep_filter]
      have h0 : L.filter (fun l => !l.isGroup) = [] := hempty
      rw [h0]
      rfl
    rw [hfold]
    have hcond : (0 : ℤ) < dw ∨ (0 : ℤ) < dh := hpos
    rw [if_pos (by simpa using hcond)]

/-- Witness for the amended C2 at a concrete document: a visible 4×5 leaf
at `(2,3)` in a 100×100 document yields the clamped box `⟨4,5,2,3⟩`. -/
theorem C2_bounding_box_amended_witness :
    0 ≤ (BBox.mk 4 5 2 3).x_offset ∧ 0 ≤ (BBox.mk 4 5 2 3).y_offset
      ∧ 0 ≤ (BBox.mk 4 5 2 3).width ∧ 0 ≤ (BBox.mk 4 5 2 3).height
      ∧ (BBox.mk 4 5 2 3).x_offset + (BBox.mk 4 5 2 3).width ≤ 100
      ∧ (BBox.mk 4 5 2 3).y_offset + (BBox.mk 4 5 2 3).height ≤ 100 :=
  ((C2_bounding_box_amended 100 100 [GLayer.leaf "a" true 2 3 4 5 false]
    (by norm_num) (by norm_num)).1 ⟨4, 5, 2, 3⟩ (by decide)).1

/-- C2 (counterexample to the claim as stated): a visible leaf reaching
left of the canvas (offset `(-5, 10)`, size 10×10, document 100×100) is
clamped away — the returned rectangle starts at `x = 0` and does not
contain the leaf's rectangle. -/
theorem C2_bounding_box_counterexample :
    get_bounding_box 100 100 [GLayer.leaf "a" true (-5) 10 10 10 false]
        = .ok ⟨5, 10, 0, 10⟩
      ∧ ¬ bboxContainsAll ⟨5, 10, 0, 10⟩
          [GLayer.leaf "a" true (-5) 10 10 10 false] := by
  constructor
  · decide
  · intro hc
    have hmem : GLayer.leaf "a" true (-5) 10 10 10 false
        ∈ visibleLeaves [GLayer.leaf "a" true (-5) 10 10 10 false] := by
      show GLayer.leaf "a" true (-5) 10 10 10 false
        ∈ [GLayer.leaf "a" true (-5) 10 10 10 false]
      exact List.mem_singleton.mpr rfl
    obtain ⟨h1, -, -, -⟩ := hc _ hmem
    exact absurd h1 (by decide)

/-- Helper: a `max`-fold bounds its seed and every element. -/
theorem le_foldl_max (l : List ℕ) :
    ∀ a : ℕ, a ≤ l.foldl max a ∧ ∀ x ∈ l, x ≤ l.foldl max a := by
  induction l with
  | nil => intro a; simp
  | cons x xs ih =>
      intro a
      simp only [List.foldl_cons]
      refine ⟨le_trans (le_max_left a x) (ih (max a x)).1, ?_⟩
      intro z hz
      rcases List.mem_cons.mp hz with h | h
      · subst h
        exact le_trans (le_max_right a z) (ih (max a z)).1
      · exact (ih (max a x)).2 z h

/-- Helper: a fresh handle is not an open handle. -/
theorem freshHandle_not_mem (h : Heap) :
    freshHandle h ∉ h.map Prod.fst := by
  intro hc
  have h2 := (le_foldl_max (h.map Prod.fst) 0).2 _ hc
  unfold freshHandle at h2
  omega

/-- Helper: writing one key leaves every other key's binding alone. -/
theorem lookup_dictSet_ne {α : Type} (d : List (Handle × α))
    (k k' : Handle) (v : α) (hne : k ≠ k') :
    (dictSet d k' v).lookup k = d.lookup k := by
  induction d with
  | nil => simp [dictSet, List.lookup, beq_eq_false_iff_ne.mpr hne]
  | cons p rest ih =>
      obtain ⟨k0, v0⟩ := p
      by_cases h0 : k0 = k'
      · subst h0
        simp [dictSet, List.lookup, beq_eq_false_iff_ne.mpr hne]
      · simp only [dictSet, if_neg h0, List.lookup]
        cases hk0 : (k == k0)
        · simpa [hk0] using ih
        · simp [hk0]

/-- Helper: after writing a key its binding holds the written value. -/
theorem lookup_dictSet_self {α : Type} (d : List (Handle × α))
    (k : Handle) (v : α) :
    (dictSet d k v).lookup k = some v := by
  induction d with
  | nil => simp [dictSet, List.lookup]
  | cons p rest ih =>
      obtain ⟨k0, v0⟩ := p
      by_cases h0 : k0 = k
      · subst h0
        simp [dictSet, List.lookup]
      · simp only [dictSet, if_neg h0, List.lookup,
          beq_eq_false_iff_ne.mpr (Ne.symm h0)]
        exact ih

/-- Helper: deleting one handle leaves every other handle's binding
alone. -/
theorem lookup_deleteImage_ne (h : Heap) (k d : Handle) (hne : k ≠ d) :
    (deleteImage h d).lookup k = h.lookup k := by
  induction h with
  | nil => rfl
  | cons p rest ih =>
      obtain ⟨k0, v0⟩ := p
      by_cases h0 : k0 = d
      · subst h0
        have h1 : deleteImage ((k0, v0) :: rest) k0 = deleteImage rest k0 := by
          simp [deleteImage]
        rw [h1, ih]
        have h2 : (k == k0) = false := beq_eq_false_iff_ne.mpr hne
        simp [List.lookup, h2]
      · have h1 : deleteImage ((k0, v0) :: rest) d
            = (k0, v0) :: deleteImage rest d := by
          simp [deleteImage, h0]
        rw [h1]
        cases hk0 : (k == k0)
        · simp only [List.lookup, hk0]
          exact ih
        · simp [List.lookup, hk0]

/-- Helper: a deleted handle is no longer open. -/
theorem not_mem_deleteImage (h : Heap) (k : Handle) :
    k ∉ (deleteImage h k).map Prod.fst := by
  intro hc
  rcases List.mem_map.mp hc with ⟨p, hp, he⟩
  have := List.of_mem_filter hp
  rw [he] at this
  simp at this

/-- C9: one pass of `run()`'s per-export block — duplicate the original,
run `create_export` against the duplicate, release the duplicate in the
`finally` — never changes the caller's original document (its binding in
the engine's store is untouched) and releases the duplicate's handle on
every exit path, whether `create_export` succeeds or fails. -/
theorem C9_duplicate_isolation :
    ∀ (scaleOk : ℤ → ℤ → Bool) (h : Heap) (orig : Handle) (e : ExportNode)
      (ctx : Chain),
      orig ∈ h.map Prod.fst →
      (runOneExport scaleOk h orig e ctx).2.lookup orig = h.lookup orig
      ∧ (duplicateImage h orig).2
          ∉ (runOneExport scaleOk h orig e ctx).2.map Prod.fst := by
  intro scaleOk h orig e ctx hmem
  have hfresh : freshHandle h ∉ h.map Prod.fst := freshHandle_not_mem h
  have hne : orig ≠ freshHandle h := fun hc => hfresh (hc ▸ hmem)
  have hdupEq : duplicateImage h orig
      = (dictSet h (freshHandle h) ((h.lookup orig).getD ⟨0, 0, []⟩),
         freshHandle h) := rfl
  have hdup2 : (duplicateImage h orig).2 = freshHandle h := rfl
  rw [hdup2]
  unfold runOneExport
  rw [hdupEq]
  simp only [lookup_dictSet_self]
  cases hce : create_export scaleOk ((h.lookup orig).getD ⟨0, 0, []⟩) e ctx with
  | ok v =>
      obtain ⟨doc', md⟩ := v
      refine ⟨?_, not_mem_deleteImage _ _⟩
      show (deleteImage (dictSet (dictSet h (freshHandle h)
          ((h.lookup orig).getD ⟨0, 0, []⟩)) (freshHandle h) doc')
          (freshHandle h)).lookup orig = h.lookup orig
      rw [lookup_deleteImage_ne _ _ _ hne, lookup_dictSet_ne _ _ _ _ hne,
        lookup_dictSet_ne _ _ _ _ hne]
  | error err =>
      refine ⟨?_, not_mem_deleteImage _ _⟩
      show (deleteImage (dictSet h (freshHandle h)
          ((h.lookup orig).getD ⟨0, 0, []⟩)) (freshHandle h)).lookup orig
          = h.lookup orig
      rw [lookup_deleteImage_ne _ _ _ hne, lookup_dictSet_ne _ _ _ _ hne]

/-- Witness for C9 on a one-document heap: the original's binding
survives the export and the duplicate handle is gone. -/
theorem C9_duplicate_isolation_witness :
    (runOneExport (fun _ _ => true) [(1, ⟨8, 8, []⟩)] 1
        ⟨"out.png", Option.none, Defaults.empty,
         GroupNode.mk Defaults.empty [] []⟩
        (Chain.root SchemaDefaults.unset)).2.lookup 1
      = ([(1, ⟨8, 8, []⟩)] : Heap).lookup 1
    ∧ (duplicateImage [(1, ⟨8, 8, []⟩)] 1).2
        ∉ (runOneExport (fun _ _ => true) [(1, ⟨8, 8, []⟩)] 1
            ⟨"out.png", Option.none, Defaults.empty,
             GroupNode.mk Defaults.empty [] []⟩
            (Chain.root SchemaDefaults.unset)).2.map Prod.fst :=
  C9_duplicate_isolation (fun _ _ => true) [(1, ⟨8, 8, []⟩)] 1
    ⟨"out.png", Option.none, Defaults.empty, GroupNode.mk Defaults.empty [] []⟩
    (Chain.root SchemaDefaults.unset) (by simp)

end GExport
